import Mathlib

/-!
Shallow embedding of the contact-book core (field validation, record and
store operations, and the upcoming-birthday computation) of `src/main.py`,
together with proofs checking the specification's claims against it.

Modelling conventions:
  - Python text values are `List Char` (sequences of code points).
  - A Python `datetime` value is a calendar date (year, month, day as
    naturals) together with a time-of-day component `tod` (any sub-day
    unit; only its comparison behaviour matters).  `strptime` produces
    midnight (`tod = 0`); `datetime.today()` carries the wall-clock time.
  - Operations that can raise `ValueError` return `PyResult`, an
    explicit ok-or-error value carrying the Python error message.
-/

/-- Result of a Python operation: a normal return or a raised `ValueError`
with its message. -/
inductive PyResult (α : Type) where
  | ok : α → PyResult α
  | error : List Char → PyResult α
deriving DecidableEq

/-- Decimal-digit test on a code point, the `\d` character class of the
pattern `\d{10}` (ASCII range). -/
def isDigitCh (c : Char) : Bool := 48 ≤ c.toNat && c.toNat ≤ 57

/-- Numeric value of a decimal digit character. -/
def digitVal (c : Char) : Nat := c.toNat - 48

/-- The digit character for a value below ten. -/
def digitCh (n : Nat) : Char := Char.ofNat (48 + n)

def phoneErrS : String := "Invalid phone number. It must contain exactly 10 digits."

/-- Message of the `ValueError` raised by `Phone.__init__` and
`Record.edit_phone`. -/
def phoneErr : List Char := phoneErrS.data

def birthdayErrS : String := "Invalid date format. Use DD.MM.YYYY"

/-- Message of the `ValueError` raised by `Birthday.__init__`. -/
def birthdayErr : List Char := birthdayErrS.data

def dayRangeErrS : String := "day is out of range for month"

/-- Message of the `ValueError` raised by `datetime.replace` when the
day does not exist in the target month/year. -/
def dayRangeErr : List Char := dayRangeErrS.data

/-- Python `Phone.validate`: `re.fullmatch(r"\d{10}", value)` — the text
is exactly ten decimal digits. -/
def Phone.validate (value : List Char) : Bool :=
  value.length == 10 && value.all isDigitCh

/-- Python `Phone.__init__`: keeps the value if `validate` accepts it,
otherwise raises `ValueError`. -/
def Phone.init (value : List Char) : PyResult (List Char) :=
  if Phone.validate value then .ok value else .error phoneErr

/-- Gregorian leap-year rule used by Python's `datetime`. -/
def isLeapYear (y : Nat) : Bool :=
  y % 4 == 0 && (y % 100 != 0 || y % 400 == 0)

/-- Number of days of a month in a given year (Python `calendar` rule). -/
def daysInMonth (y m : Nat) : Nat :=
  if m == 2 then (if isLeapYear y then 29 else 28)
  else if m == 4 || m == 6 || m == 9 || m == 11 then 30 else 31

/-- Validity check performed by Python `datetime(y, m, d)` construction:
year within `MINYEAR..MAXYEAR`, month within `1..12`, day within the
month's length. -/
def isValidDate (y m d : Nat) : Bool :=
  1 ≤ y && y ≤ 9999 && 1 ≤ m && m ≤ 12 && 1 ≤ d && d ≤ daysInMonth y m

/-- A calendar date as stored inside a Python `datetime`. -/
structure Date where
  year : Nat
  month : Nat
  day : Nat
deriving DecidableEq

/-- Strict comparison of the date components, as Python compares the
`(year, month, day)` prefix of two `datetime` values. -/
def dateLt (a b : Date) : Bool :=
  a.year < b.year ||
    (a.year == b.year &&
      (a.month < b.month || (a.month == b.month && a.day < b.day)))

/-- Non-strict date comparison. -/
def dateLe (a b : Date) : Bool := dateLt a b || a == b

/-- A Python `datetime`: calendar date plus time of day (`tod = 0` is
midnight). -/
structure PyDateTime where
  date : Date
  tod : Nat
deriving DecidableEq

/-- Python `datetime <` : lexicographic on date then time of day. -/
def dtLt (a b : PyDateTime) : Bool :=
  dateLt a.date b.date || (a.date == b.date && a.tod < b.tod)

/-- Python `datetime <=` : lexicographic on date then time of day. -/
def dtLe (a b : PyDateTime) : Bool :=
  dateLt a.date b.date || (a.date == b.date && a.tod ≤ b.tod)

/-- Successor of a calendar date. -/
def nextDay (d : Date) : Date :=
  if d.day < daysInMonth d.year d.month then ⟨d.year, d.month, d.day + 1⟩
  else if d.month < 12 then ⟨d.year, d.month + 1, 1⟩
  else ⟨d.year + 1, 1, 1⟩

/-- Adding a number of days to a calendar date (`timedelta(days=n)`). -/
def addDays : Date → Nat → Date
  | d, 0 => d
  | d, n + 1 => addDays (nextDay d) n

/-- Python `today + timedelta(days=7)`: the date advances, the time of
day is unchanged. -/
def addWeek (t : PyDateTime) : PyDateTime := ⟨addDays t.date 7, t.tod⟩

/-- Python `date.replace(year=y)`: keeps month and day, validates the
resulting date, raising `ValueError` when it does not exist (a Feb 29
moved to a non-leap year). -/
def replaceYear (d : Date) (y : Nat) : Option Date :=
  if isValidDate y d.month d.day then some ⟨y, d.month, d.day⟩ else none

/-- Lenient `strptime` field parser for `%d` / `%m`: accepts one or two
digits (regex `3[01]|[12]\d|0[1-9]|[1-9]` resp. `1[0-2]|0[1-9]|[1-9]`),
returning the value and the remaining text. -/
def parseDM (hi : Nat) : List Char → Option (Nat × List Char)
  | [] => none
  | [c] => if isDigitCh c && 1 ≤ digitVal c then some (digitVal c, []) else none
  | c1 :: c2 :: rest =>
    if isDigitCh c1 && isDigitCh c2 then
      (if 1 ≤ 10 * digitVal c1 + digitVal c2 && 10 * digitVal c1 + digitVal c2 ≤ hi
       then some (10 * digitVal c1 + digitVal c2, rest)
       else none)
    else if isDigitCh c1 && 1 ≤ digitVal c1 then some (digitVal c1, c2 :: rest)
    else none

/-- Consume the literal dot of the format `%d.%m.%Y`. -/
def expectDot : List Char → Option (List Char)
  | c :: rest => if c == '.' then some rest else none
  | [] => none

/-- The `%Y` field of `strptime`: exactly four digits ending the text. -/
def parseYear4 : List Char → Option Nat
  | [a, b, c, d] =>
    if isDigitCh a && isDigitCh b && isDigitCh c && isDigitCh d then
      some (1000 * digitVal a + 100 * digitVal b + 10 * digitVal c + digitVal d)
    else none
  | _ => none

/-- Python `datetime.strptime(value, "%d.%m.%Y")`: match the lenient
day/month fields and the four-digit year against the whole text, then
validate the resulting calendar date. -/
def strptimeDMY (s : List Char) : Option Date :=
  match parseDM 31 s with
  | none => none
  | some (d, r1) =>
    match expectDot r1 with
    | none => none
    | some r2 =>
      match parseDM 12 r2 with
      | none => none
      | some (m, r3) =>
        match expectDot r3 with
        | none => none
        | some r4 =>
          match parseYear4 r4 with
          | none => none
          | some y => if isValidDate y m d then some (⟨y, m, d⟩ : Date) else none

/-- Python `Birthday.__init__`: parse with `strptime`, re-raising any
`ValueError` with the fixed format message. -/
def Birthday.init (value : List Char) : PyResult Date :=
  match strptimeDMY value with
  | some d => .ok d
  | none => .error birthdayErr

/-- Two-digit zero-padded rendering (`%d`, `%m` of `strftime`). -/
def pad2 (n : Nat) : List Char := [digitCh (n / 10 % 10), digitCh (n % 10)]

/-- Four-digit zero-padded rendering (`%Y` of `strftime`). -/
def pad4 (n : Nat) : List Char :=
  [digitCh (n / 1000 % 10), digitCh (n / 100 % 10), digitCh (n / 10 % 10), digitCh (n % 10)]

/-- Python `value.strftime("%d.%m.%Y")` on a stored birthday date. -/
def renderDMY (d : Date) : List Char :=
  pad2 d.day ++ '.' :: (pad2 d.month ++ '.' :: pad4 d.year)

/-- A contact record: the `Name` value (kept as raw text, `Name` adds no
validation), the list of `Phone` values in insertion order, and the
optional stored `Birthday` date. -/
structure Record where
  name : List Char
  phones : List (List Char)
  birthday : Option Date
deriving DecidableEq

/-- Python `Record.__init__`: wraps the name unvalidated, with no phones
and no birthday. -/
def Record.init (name : List Char) : Record := ⟨name, [], none⟩

/-- Python `Record.add_phone`: construct the `Phone` (which validates,
raising on bad input) and append it. -/
def Record.add_phone (r : Record) (phone : List Char) : PyResult Record :=
  match Phone.init phone with
  | .ok v => .ok ⟨r.name, r.phones ++ [v], r.birthday⟩
  | .error e => .error e

/-- Python `Record.remove_phone`: keep the phones whose value differs. -/
def Record.remove_phone (r : Record) (phone : List Char) : Record :=
  ⟨r.name, r.phones.filter (fun p => p != phone), r.birthday⟩

/-- The loop body of `Record.edit_phone`: overwrite the first phone equal
to `old` and stop (`break`). -/
def replaceFirstPhone : List (List Char) → List Char → List Char → List (List Char)
  | [], _, _ => []
  | p :: ps, old, new => if p == old then new :: ps else p :: replaceFirstPhone ps old new

/-- Python `Record.edit_phone`: validate the new value (raising when
invalid), then overwrite the first phone equal to `old`, if any. -/
def Record.edit_phone (r : Record) (old new : List Char) : PyResult Record :=
  if Phone.validate new then .ok ⟨r.name, replaceFirstPhone r.phones old new, r.birthday⟩
  else .error phoneErr

/-- Python `Record.find_phone`: first phone equal to the argument, `None`
when absent. -/
def Record.find_phone (r : Record) (phone : List Char) : Option (List Char) :=
  r.phones.find? (fun p => p == phone)

/-- Python `Record.add_birthday`: parse (raising on bad input) and
overwrite the stored birthday. -/
def Record.add_birthday (r : Record) (birthday : List Char) : PyResult Record :=
  match Birthday.init birthday with
  | .ok d => .ok ⟨r.name, r.phones, some d⟩
  | .error e => .error e

/-- The `AddressBook` store: an insertion-ordered mapping from name text
to record, as a Python `dict` holds it. -/
abbrev AddressBook := List (List Char × Record)

/-- Assignment `data[k] = v` on an insertion-ordered mapping: overwrite
in place when the key exists, else append. -/
def dictInsert : AddressBook → List Char → Record → AddressBook
  | [], k, v => [(k, v)]
  | (k2, v2) :: rest, k, v =>
    if k2 == k then (k, v) :: rest else (k2, v2) :: dictInsert rest k v

/-- Python `AddressBook.add_record`: `self.data[record.name.value] = record`. -/
def AddressBook.add_record (book : AddressBook) (record : Record) : AddressBook :=
  dictInsert book record.name record

/-- Python `AddressBook.find`: `self.data.get(name)`. -/
def AddressBook.find : AddressBook → List Char → Option Record
  | [], _ => none
  | (k2, v2) :: rest, k => if k2 == k then some v2 else AddressBook.find rest k

/-- Python `AddressBook.delete`: remove the entry when the key is
present, do nothing otherwise. -/
def AddressBook.delete (book : AddressBook) (name : List Char) : AddressBook :=
  book.filter (fun kv => kv.1 != name)

/-- Python `self.data.values()`: the records in insertion order. -/
def AddressBook.values (book : AddressBook) : List Record :=
  book.map Prod.snd

/-- The per-record computation of `get_upcoming_birthdays`:
`birthday_date = value.replace(year=today.year)`, advanced by one year
when it compares below `today`; `none` models the raised `ValueError`. -/
def nextOcc (today : PyDateTime) (b : Date) : Option Date :=
  match replaceYear b today.date.year with
  | none => none
  | some bd => if dtLt ⟨bd, 0⟩ today then replaceYear b (today.date.year + 1) else some bd

/-- The loop of `AddressBook.get_upcoming_birthdays` over the stored
records: collect `(name, birthday)` for the records whose next birthday
occurrence lies in `today <= d <= today + 7 days`, propagating a raised
`ValueError`. -/
def upcomingFrom (today : PyDateTime) : List Record → PyResult (List (List Char × Date))
  | [] => .ok []
  | r :: rs =>
    match r.birthday with
    | none => upcomingFrom today rs
    | some b =>
      match nextOcc today b with
      | none => .error dayRangeErr
      | some bd =>
        match upcomingFrom today rs with
        | .error e => .error e
        | .ok rest =>
          if dtLe today ⟨bd, 0⟩ && dtLe ⟨bd, 0⟩ (addWeek today) then .ok ((r.name, b) :: rest)
          else .ok rest

/-- Python `AddressBook.get_upcoming_birthdays`, with the ambient
`datetime.today()` made an explicit argument. -/
def AddressBook.get_upcoming_birthdays (book : AddressBook) (today : PyDateTime) :
    PyResult (List (List Char × Date)) :=
  upcomingFrom today (AddressBook.values book)

/-- Modelled from the spec: the next occurrence of a stored birthday —
the stored month/day paired with the year of `today`, advanced by one
year when that date is strictly earlier than `today` under a date-only
comparison. -/
def specNextOcc (today b : Date) : Date :=
  if dateLt ⟨today.year, b.month, b.day⟩ today then ⟨today.year + 1, b.month, b.day⟩
  else ⟨today.year, b.month, b.day⟩

/-- Modelled from the spec: the records whose birthday's next occurrence
falls in the inclusive window from `today` to `today + 7` days, in store
iteration order, each entry carrying the name and the original birthday. -/
def specUpcoming (today : Date) : List Record → List (List Char × Date)
  | [] => []
  | r :: rs =>
    match r.birthday with
    | none => specUpcoming today rs
    | some b =>
      if dateLe today (specNextOcc today b) && dateLe (specNextOcc today b) (addDays today 7)
      then (r.name, b) :: specUpcoming today rs
      else specUpcoming today rs

/-- Modelled from the spec: text that is a valid calendar date written in
the fixed `DD.MM.YYYY` pattern — two-digit day, two-digit month,
four-digit year, literal dots, denoting a real calendar date. -/
def isStrictDMY : List Char → Bool
  | [d1, d2, c1, m1, m2, c2, y1, y2, y3, y4] =>
    c1 == '.' && c2 == '.' &&
    isDigitCh d1 && isDigitCh d2 && isDigitCh m1 && isDigitCh m2 &&
    isDigitCh y1 && isDigitCh y2 && isDigitCh y3 && isDigitCh y4 &&
    isValidDate (1000 * digitVal y1 + 100 * digitVal y2 + 10 * digitVal y3 + digitVal y4)
      (10 * digitVal m1 + digitVal m2) (10 * digitVal d1 + digitVal d2)
  | _ => false

/-- Time-of-day erased membership test used to state the safety
hypothesis of the upcoming-birthday theorem: every stored birthday's
next-occurrence computation returns without raising. -/
def NoLeapFailure (today : PyDateTime) (book : AddressBook) : Prop :=
  ∀ r ∈ AddressBook.values book, Option.all (fun b => (nextOcc today b).isSome) r.birthday = true

def alS : String := "Alice"

def boS : String := "Bob"

def p1111S : String := "1111111111"

def p2222S : String := "2222222222"

def p9999S : String := "9999999999"

def ph10S : String := "1234567890"

def ph9S : String := "123456789"

def ph11S : String := "12345678901"

def phLetS : String := "123456789a"

def bd1S : String := "05.06.2000"

def febS : String := "29.02.2000"

def lenientS : String := "5.6.2000"

/-- A record for Alice with birthday June 5, 2000 (`05.06.2000`). -/
def aliceRec : Record := ⟨alS.data, [], some ⟨2000, 6, 5⟩⟩

/-- A record for Bob with birthday January 1, 2000 (`01.01.2000`). -/
def bobRec : Record := ⟨boS.data, [], some ⟨2000, 1, 1⟩⟩

/-- A record whose birthday is the leap day Feb 29, 2000 (`29.02.2000`). -/
def leapRec : Record := ⟨alS.data, [], some ⟨2000, 2, 29⟩⟩

/-- A record whose birthday falls on June 1 (`01.06.2000`). -/
def junRec : Record := ⟨alS.data, [], some ⟨2000, 6, 1⟩⟩

def wBook : AddressBook := [(alS.data, aliceRec), (boS.data, bobRec)]

def cexBook : AddressBook := [(alS.data, junRec)]

def leapBook : AddressBook := [(alS.data, leapRec)]

theorem isDigitCh_eq_isDigit (c : Char) : isDigitCh c = c.isDigit := by
  simp [isDigitCh, Char.isDigit, Char.le_def, UInt32.le_def, BitVec.le_def, Char.toNat,
    UInt32.toNat]

theorem dtLt_mid (a b : Date) : dtLt ⟨a, 0⟩ ⟨b, 0⟩ = dateLt a b := by
  simp [dtLt]

theorem dtLe_mid (a b : Date) : dtLe ⟨a, 0⟩ ⟨b, 0⟩ = dateLe a b := by
  simp [dtLe, dateLe]

/-- Claim C3: Phone.validate accepts exactly the texts of ten decimal
digit characters, and Phone construction succeeds exactly when
Phone.validate holds, failing with the validation error otherwise. -/
theorem phone_validation_correct (t : List Char) :
    (Phone.validate t = true ↔ t.length = 10 ∧ ∀ c ∈ t, c.isDigit = true) ∧
    ((∃ v, Phone.init t = PyResult.ok v) ↔ Phone.validate t = true) ∧
    (Phone.validate t = false → Phone.init t = PyResult.error phoneErr) := by
  refine ⟨?_, ?_, ?_⟩
  · simp [Phone.validate, List.all_eq_true, isDigitCh_eq_isDigit]
  · constructor
    · rintro ⟨v, hv⟩
      by_contra h
      simp [Phone.init, Bool.eq_false_iff.mpr h] at hv
    · intro h
      exact ⟨t, by simp [Phone.init, h]⟩
  · intro h
    simp [Phone.init, h]

/-- Claim C3 witness: the 9-digit boundary string fails validation and
construction, and the 10-digit string passes. -/
theorem phone_validation_correct_witness :
    Phone.init ph9S.data = PyResult.error phoneErr ∧ Phone.validate ph10S.data = true := by
  constructor
  · exact (phone_validation_correct ph9S.data).2.2 (by decide)
  · decide

theorem replaceFirstPhone_not_mem (ps : List (List Char)) (old new : List Char)
    (h : old ∉ ps) : replaceFirstPhone ps old new = ps := by
  induction ps with
  | nil => rfl
  | cons p ps ih =>
    have hne : p ≠ old := fun he => h (he ▸ List.mem_cons_self p ps)
    have hrest : old ∉ ps := fun hm => h (List.mem_cons_of_mem p hm)
    simp [replaceFirstPhone, beq_iff_eq, hne, ih hrest]

theorem replaceFirstPhone_append (l1 l2 : List (List Char)) (old new : List Char)
    (h : old ∉ l1) : replaceFirstPhone (l1 ++ old :: l2) old new = l1 ++ new :: l2 := by
  induction l1 with
  | nil => simp [replaceFirstPhone]
  | cons p l1 ih =>
    have hne : p ≠ old := fun he => h (he ▸ List.mem_cons_self p l1)
    have hrest : old ∉ l1 := fun hm => h (List.mem_cons_of_mem p hm)
    simp [replaceFirstPhone, beq_iff_eq, hne, ih hrest]

theorem mem_replaceFirstPhone (ps : List (List Char)) (old new q : List Char)
    (h : q ∈ replaceFirstPhone ps old new) : q ∈ ps ∨ q = new := by
  induction ps with
  | nil => simp [replaceFirstPhone] at h
  | cons p ps ih =>
    by_cases hp : p == old
    · simp [replaceFirstPhone, hp] at h
      rcases h with h | h
      · right
        exact h
      · left
        exact List.mem_cons_of_mem p h
    · simp [replaceFirstPhone, hp] at h
      rcases h with h | h
      · left
        exact h ▸ List.mem_cons_self p ps
      · rcases ih h with h2 | h2
        · exact Or.inl (List.mem_cons_of_mem p h2)
        · exact Or.inr h2

/-- Claim C5: edit_phone fails with the validation error when the new
value is invalid; when valid, it replaces exactly the first phone equal
to `old`, leaving later matches and other phones unchanged; and when no
phone equals `old` the record is returned entirely unchanged with no
error. -/
theorem edit_phone_correct (r : Record) (old new : List Char) (l1 l2 : List (List Char)) :
    (Phone.validate new = false → Record.edit_phone r old new = PyResult.error phoneErr) ∧
    (Phone.validate new = true → old ∉ r.phones → Record.edit_phone r old new = PyResult.ok r) ∧
    (Phone.validate new = true → r.phones = l1 ++ old :: l2 → old ∉ l1 →
      Record.edit_phone r old new = PyResult.ok ⟨r.name, l1 ++ new :: l2, r.birthday⟩) := by
  refine ⟨?_, ?_, ?_⟩
  · intro h
    simp [Record.edit_phone, h]
  · intro h hmem
    simp [Record.edit_phone, h, replaceFirstPhone_not_mem r.phones old new hmem]
  · intro h heq hmem
    simp [Record.edit_phone, h, heq, replaceFirstPhone_append l1 l2 old new hmem]

/-- Claim C5 witness: on a record holding the single phone 1111111111,
editing 1111111111 to 2222222222 replaces it, and editing a phone that
is not present is a silent no-op. -/
theorem edit_phone_correct_witness :
    Record.edit_phone ⟨alS.data, [p1111S.data], none⟩ p1111S.data p2222S.data =
      PyResult.ok ⟨alS.data, [p2222S.data], none⟩ ∧
    Record.edit_phone ⟨alS.data, [p1111S.data], none⟩ p9999S.data p2222S.data =
      PyResult.ok ⟨alS.data, [p1111S.data], none⟩ := by
  constructor
  · have h := (edit_phone_correct ⟨alS.data, [p1111S.data], none⟩ p1111S.data p2222S.data
      [] [] ).2.2 (by decide) (by decide) (by decide)
    simpa using h
  · exact (edit_phone_correct ⟨alS.data, [p1111S.data], none⟩ p9999S.data p2222S.data
      [] [] ).2.1 (by decide) (by decide)

/-- Every phone stored in the record is a valid ten-digit value. -/
def PhonesValid (r : Record) : Prop := ∀ p ∈ r.phones, Phone.validate p = true

/-- Claim C6: records built by the public operations only ever hold
ten-digit phone values: construction starts empty, and add_phone,
remove_phone and edit_phone each preserve the invariant. -/
theorem phones_always_valid (n p old new : List Char) (r r2 : Record) :
    PhonesValid (Record.init n) ∧
    (PhonesValid r → Record.add_phone r p = PyResult.ok r2 → PhonesValid r2) ∧
    (PhonesValid r → PhonesValid (Record.remove_phone r p)) ∧
    (PhonesValid r → Record.edit_phone r old new = PyResult.ok r2 → PhonesValid r2) := by
  refine ⟨?_, ?_, ?_, ?_⟩
  · intro q hq
    simp [Record.init] at hq
  · intro hr hadd q hq
    by_cases hv : Phone.validate p = true
    · simp [Record.add_phone, Phone.init, hv] at hadd
      rw [← hadd] at hq
      simp at hq
      rcases hq with hq | hq
      · exact hr q hq
      · exact hq ▸ hv
    · simp [Record.add_phone, Phone.init, hv] at hadd
  · intro hr q hq
    simp [Record.remove_phone] at hq
    exact hr q hq.1
  · intro hr hedit q hq
    by_cases hv : Phone.validate new = true
    · simp [Record.edit_phone, hv] at hedit
      rw [← hedit] at hq
      simp at hq
      rcases mem_replaceFirstPhone r.phones old new q hq with h2 | h2
      · exact hr q h2
      · exact h2 ▸ hv
    · simp [Record.edit_phone, hv] at hedit

/-- Claim C6 witness: the invariant propagated through a concrete
add_phone call. -/
theorem phones_always_valid_witness :
    PhonesValid ⟨alS.data, [ph10S.data], none⟩ := by
  have h := (phones_always_valid alS.data ph10S.data [] [] (Record.init alS.data)
    ⟨alS.data, [ph10S.data], none⟩).2.1
  exact h (by intro q hq; simp [Record.init] at hq) (by decide)

/-- Claim C7: a failed add_phone or edit_phone raises the validation
error and produces no mutated record at all — in particular no phantom
phone entry and no change to existing phones. -/
theorem failed_mutation_leaves_state (r : Record) (p old new : List Char) :
    (Phone.validate p = false → Record.add_phone r p = PyResult.error phoneErr) ∧
    (Phone.validate new = false → Record.edit_phone r old new = PyResult.error phoneErr) := by
  constructor
  · intro h
    simp [Record.add_phone, Phone.init, h]
  · intro h
    simp [Record.edit_phone, h]

/-- Claim C7 witness: adding or editing with a 9-digit value fails with
the validation error on a concrete record. -/
theorem failed_mutation_leaves_state_witness :
    Record.add_phone ⟨alS.data, [ph10S.data], none⟩ ph9S.data = PyResult.error phoneErr ∧
    Record.edit_phone ⟨alS.data, [ph10S.data], none⟩ ph10S.data ph9S.data =
      PyResult.error phoneErr := by
  constructor
  · exact (failed_mutation_leaves_state ⟨alS.data, [ph10S.data], none⟩ ph9S.data [] []).1
      (by decide)
  · exact (failed_mutation_leaves_state ⟨alS.data, [ph10S.data], none⟩ [] ph10S.data
      ph9S.data).2 (by decide)

theorem find_dictInsert_self (book : AddressBook) (k : List Char) (v : Record) :
    AddressBook.find (dictInsert book k v) k = some v := by
  induction book with
  | nil => simp [dictInsert, AddressBook.find]
  | cons kv rest ih =>
    obtain ⟨k2, v2⟩ := kv
    by_cases h : k2 == k
    · simp [dictInsert, h, AddressBook.find]
    · simp [dictInsert, h, AddressBook.find, ih]

theorem find_dictInsert_other (book : AddressBook) (k k2 : List Char) (v : Record)
    (h : k2 ≠ k) : AddressBook.find (dictInsert book k v) k2 = AddressBook.find book k2 := by
  have hne : (k == k2) = false := beq_eq_false_iff_ne.mpr (fun he => h he.symm)
  induction book with
  | nil => simp [dictInsert, AddressBook.find, hne]
  | cons kv rest ih =>
    obtain ⟨k3, v3⟩ := kv
    by_cases h3 : (k3 == k) = true
    · have hk : k3 = k := by simpa using h3
      subst hk
      simp [dictInsert, AddressBook.find, hne]
    · have h3f : (k3 == k) = false := by simpa using h3
      simp only [dictInsert, h3f, Bool.false_eq_true, if_false]
      by_cases h4 : (k3 == k2) = true
      · simp [AddressBook.find, h4]
      · have h4f : (k3 == k2) = false := by simpa using h4
        simp [AddressBook.find, h4f, ih]

/-- Every key of the store equals the name of the record it maps to. -/
def KeysMatch (book : AddressBook) : Prop := ∀ kv ∈ book, kv.1 = kv.2.name

theorem keysMatch_dictInsert (book : AddressBook) (r : Record)
    (h : KeysMatch book) : KeysMatch (dictInsert book r.name r) := by
  induction book with
  | nil =>
    intro kv hkv
    simp [dictInsert] at hkv
    simp [hkv]
  | cons kv2 rest ih =>
    obtain ⟨k2, v2⟩ := kv2
    have h2 : KeysMatch rest := fun kv hkv => h kv (List.mem_cons_of_mem _ hkv)
    by_cases hk : k2 == r.name
    · intro kv hkv
      simp [dictInsert, hk] at hkv
      rcases hkv with hkv | hkv
      · simp [hkv]
      · exact h kv (List.mem_cons_of_mem _ hkv)
    · intro kv hkv
      simp only [dictInsert, hk, if_neg] at hkv
      simp at hkv
      rcases hkv with hkv | hkv
      · exact h kv (by simp [hkv])
      · exact ih h2 kv hkv

/-- Claim C8: add_record stores the record under its name with
last-write-wins overwrite — afterwards find on that name returns exactly
the new record and all other keys are untouched — and it preserves the
invariant that each key equals the stored record's name. -/
theorem add_record_correct (book : AddressBook) (r : Record) (k : List Char) :
    AddressBook.find (AddressBook.add_record book r) r.name = some r ∧
    (k ≠ r.name → AddressBook.find (AddressBook.add_record book r) k = AddressBook.find book k) ∧
    (KeysMatch book → KeysMatch (AddressBook.add_record book r)) := by
  refine ⟨?_, ?_, ?_⟩
  · exact find_dictInsert_self book r.name r
  · intro h
    exact find_dictInsert_other book r.name k r h
  · intro h
    exact keysMatch_dictInsert book r h

/-- Claim C8 witness: adding a second record named Alice overwrites the
first, so find returns only the new one, and keys still match names. -/
theorem add_record_correct_witness :
    AddressBook.find
        (AddressBook.add_record [(alS.data, ⟨alS.data, [p1111S.data], none⟩)]
          ⟨alS.data, [p2222S.data], none⟩) alS.data =
      some ⟨alS.data, [p2222S.data], none⟩ ∧
    AddressBook.find
        (AddressBook.add_record [(alS.data, ⟨alS.data, [p1111S.data], none⟩)]
          ⟨alS.data, [p2222S.data], none⟩) boS.data = none := by
  constructor
  · exact (add_record_correct [(alS.data, ⟨alS.data, [p1111S.data], none⟩)]
      ⟨alS.data, [p2222S.data], none⟩ []).1
  · have h := (add_record_correct [(alS.data, ⟨alS.data, [p1111S.data], none⟩)]
      ⟨alS.data, [p2222S.data], none⟩ boS.data).2.1 (by decide)
    rw [h]
    decide

theorem find_eq_none_iff (book : AddressBook) (k : List Char) :
    AddressBook.find book k = none ↔ ∀ v, (k, v) ∉ book := by
  induction book with
  | nil => simp [AddressBook.find]
  | cons kv rest ih =>
    obtain ⟨k2, v2⟩ := kv
    by_cases h : (k2 == k) = true
    · have hk : k2 = k := by simpa using h
      subst hk
      constructor
      · intro hfind
        exfalso
        simp [AddressBook.find] at hfind
      · intro h2
        exact absurd (List.mem_cons_self _ _) (h2 v2)
    · have hk : k2 ≠ k := by simpa using h
      have hf : (k2 == k) = false := by simpa using h
      simp only [AddressBook.find, hf, Bool.false_eq_true, if_false]
      rw [ih]
      constructor
      · intro h2 v hv
        simp at hv
        rcases hv with hv | hv
        · exact hk hv.1.symm
        · exact h2 v hv
      · intro h2 v hv
        exact h2 v (List.mem_cons_of_mem _ hv)

theorem find_delete_other (book : AddressBook) (name k : List Char) (hk : k ≠ name) :
    AddressBook.find (AddressBook.delete book name) k = AddressBook.find book k := by
  induction book with
  | nil => rfl
  | cons kv rest ih =>
    obtain ⟨k2, v2⟩ := kv
    unfold AddressBook.delete at ih ⊢
    rw [List.filter_cons]
    by_cases h2 : k2 = name
    · have hb : ((k2, v2).1 != name) = false := by simp [h2]
      rw [hb]
      simp only [Bool.false_eq_true, if_false]
      rw [ih]
      have hne : (k2 == k) = false := beq_eq_false_iff_ne.mpr (fun he => hk (he ▸ h2))
      simp [AddressBook.find, hne]
    · have hb : ((k2, v2).1 != name) = true := by simp [h2]
      rw [hb]
      simp only [if_true]
      by_cases h3 : (k2 == k) = true
      · simp [AddressBook.find, h3]
      · have h3f : (k2 == k) = false := by simpa using h3
        simp [AddressBook.find, h3f]
        exact ih

/-- Claim C9: delete removes the entry for a present name and is a
silent no-op for an absent one, and Store find / Record find_phone
signal absence with a non-raising sentinel (`none`), returning `none`
exactly when nothing matches. -/
theorem delete_and_absence_correct (book : AddressBook) (name k : List Char)
    (r : Record) (p : List Char) :
    (AddressBook.find book name = none → AddressBook.delete book name = book) ∧
    AddressBook.find (AddressBook.delete book name) name = none ∧
    (k ≠ name → AddressBook.find (AddressBook.delete book name) k = AddressBook.find book k) ∧
    (AddressBook.find book k = none ↔ ∀ v, (k, v) ∉ book) ∧
    (Record.find_phone r p = none ↔ p ∉ r.phones) := by
  refine ⟨?_, ?_, ?_, ?_, ?_⟩
  · intro h
    rw [find_eq_none_iff] at h
    unfold AddressBook.delete
    apply List.filter_eq_self.mpr
    intro kv hkv
    obtain ⟨k2, v2⟩ := kv
    have : k2 ≠ name := fun he => h v2 (he ▸ hkv)
    simpa using this
  · rw [find_eq_none_iff]
    intro v hv
    unfold AddressBook.delete at hv
    have := List.of_mem_filter hv
    simp at this
  · intro hk
    exact find_delete_other book name k hk
  · exact find_eq_none_iff book k
  · unfold Record.find_phone
    rw [List.find?_eq_none]
    constructor
    · intro h hp
      have h2 := h p hp
      simp at h2
    · intro h x hx
      simp
      exact fun he => h (he ▸ hx)

/-- Claim C9 witness: deleting an absent name leaves a concrete store
unchanged, deleting a present one removes it, and find / find_phone
return the `none` sentinel on concrete misses. -/
theorem delete_and_absence_correct_witness :
    AddressBook.delete [(alS.data, aliceRec)] boS.data = [(alS.data, aliceRec)] ∧
    AddressBook.find (AddressBook.delete [(alS.data, aliceRec)] alS.data) alS.data = none ∧
    Record.find_phone ⟨alS.data, [p1111S.data], none⟩ p9999S.data = none := by
  refine ⟨?_, ?_, ?_⟩
  · exact (delete_and_absence_correct [(alS.data, aliceRec)] boS.data [] aliceRec []).1
      (by decide)
  · exact (delete_and_absence_correct [(alS.data, aliceRec)] alS.data [] aliceRec []).2.1
  · exact (delete_and_absence_correct [] [] [] ⟨alS.data, [p1111S.data], none⟩
      p9999S.data).2.2.2.2.mpr (by decide)

/-- Claim C10: Record construction applies no validation to the name —
any text, the empty one included, is accepted unchanged — and a record
with an empty name is stored and found under the empty-string key. -/
theorem record_name_unvalidated (s : List Char) (book : AddressBook) :
    Record.init s = ⟨s, [], none⟩ ∧
    (Record.init s).name = s ∧
    AddressBook.find (AddressBook.add_record book (Record.init [])) [] =
      some (Record.init []) := by
  refine ⟨rfl, rfl, ?_⟩
  exact find_dictInsert_self book [] (Record.init [])

/-- Claim C2 (code bug): contrary to the claim, get_upcoming_birthdays
raises for a well-formed store holding a record whose birthday is
Feb 29 when the target year is not a leap year — `replace(year=2025)`
fails because Feb 29, 2025 does not exist — so the code crashes on
well-typed input. -/
theorem upcoming_birthdays_feb29_raises :
    AddressBook.get_upcoming_birthdays leapBook ⟨⟨2025, 6, 1⟩, 0⟩ =
      PyResult.error dayRangeErr ∧
    Birthday.init febS.data = PyResult.ok ⟨2000, 2, 29⟩ := by
  constructor
  · decide
  · decide

theorem digitVal_lt_10 (c : Char) (h : isDigitCh c = true) : digitVal c < 10 := by
  simp [isDigitCh] at h
  unfold digitVal
  omega

theorem digitCh_digitVal (c : Char) (h : isDigitCh c = true) : digitCh (digitVal c) = c := by
  simp [isDigitCh] at h
  obtain ⟨h1, h2⟩ := h
  have h3 : 48 + digitVal c = c.toNat := by
    unfold digitVal
    omega
  unfold digitCh
  rw [h3]
  exact Char.ofNat_toNat c

theorem daysInMonth_le_31 (y m : Nat) : daysInMonth y m ≤ 31 := by
  unfold daysInMonth
  split
  · split <;> omega
  · split <;> omega

/-- Claim C4 counterexample: the text 5.6.2000 is not in the fixed
DD.MM.YYYY pattern, yet strptime-based parsing accepts it (lenient
one-digit day and month), so parsing does not fail on every text
outside the pattern. -/
theorem birthday_parse_lenient_cex :
    isStrictDMY lenientS.data = false ∧ strptimeDMY lenientS.data = some ⟨2000, 6, 5⟩ := by
  constructor
  · decide
  · decide

/-- Claim C4 (amended): parsing succeeds on every valid date in the
fixed DD.MM.YYYY pattern and rendering the stored date reproduces the
text exactly; parsing succeeds only on real calendar dates (but, beyond
the claim, also accepts unpadded one-digit day or month forms). -/
theorem birthday_roundtrip (s : List Char) :
    (isStrictDMY s = true → ∃ d, strptimeDMY s = some d ∧ renderDMY d = s) ∧
    (∀ d, strptimeDMY s = some d → isValidDate d.year d.month d.day = true) := by
  constructor
  · intro h
    rcases s with _ | ⟨c1, s⟩
    · simp [isStrictDMY] at h
    rcases s with _ | ⟨c2, s⟩
    · simp [isStrictDMY] at h
    rcases s with _ | ⟨c3, s⟩
    · simp [isStrictDMY] at h
    rcases s with _ | ⟨c4, s⟩
    · simp [isStrictDMY] at h
    rcases s with _ | ⟨c5, s⟩
    · simp [isStrictDMY] at h
    rcases s with _ | ⟨c6, s⟩
    · simp [isStrictDMY] at h
    rcases s with _ | ⟨c7, s⟩
    · simp [isStrictDMY] at h
    rcases s with _ | ⟨c8, s⟩
    · simp [isStrictDMY] at h
    rcases s with _ | ⟨c9, s⟩
    · simp [isStrictDMY] at h
    rcases s with _ | ⟨c10, s⟩
    · simp [isStrictDMY] at h
    rcases s with _ | ⟨c11, s⟩
    case cons.cons => simp [isStrictDMY] at h
    simp only [isStrictDMY, Bool.and_eq_true, beq_iff_eq] at h
    obtain ⟨⟨⟨⟨⟨⟨⟨⟨⟨⟨hdot1, hdot2⟩, hd1⟩, hd2⟩, hm1⟩, hm2⟩, hy1⟩, hy2⟩, hy3⟩, hy4⟩, hval⟩ := h
    subst hdot1
    subst hdot2
    have a1 := digitVal_lt_10 c1 hd1
    have a2 := digitVal_lt_10 c2 hd2
    have a4 := digitVal_lt_10 c4 hm1
    have a5 := digitVal_lt_10 c5 hm2
    have a7 := digitVal_lt_10 c7 hy1
    have a8 := digitVal_lt_10 c8 hy2
    have a9 := digitVal_lt_10 c9 hy3
    have a10 := digitVal_lt_10 c10 hy4
    have hval2 := hval
    simp only [isValidDate, Bool.and_eq_true, decide_eq_true_eq] at hval2
    obtain ⟨⟨⟨⟨⟨hy_lo, hy_hi⟩, hm_lo⟩, hm_hi⟩, hd_lo⟩, hd_hi⟩ := hval2
    have hd31 : 10 * digitVal c1 + digitVal c2 ≤ 31 :=
      le_trans hd_hi (daysInMonth_le_31 _ _)
    refine ⟨⟨1000 * digitVal c7 + 100 * digitVal c8 + 10 * digitVal c9 + digitVal c10,
      10 * digitVal c4 + digitVal c5, 10 * digitVal c1 + digitVal c2⟩, ?_, ?_⟩
    · simp [strptimeDMY, parseDM, expectDot, parseYear4, hd1, hd2, hm1, hm2,
        hy1, hy2, hy3, hy4, hd_lo, hd31, hm_lo, hm_hi, hval]
    · simp only [renderDMY, pad2, pad4]
      have e1 : (10 * digitVal c1 + digitVal c2) / 10 % 10 = digitVal c1 := by omega
      have e2 : (10 * digitVal c1 + digitVal c2) % 10 = digitVal c2 := by omega
      have e4 : (10 * digitVal c4 + digitVal c5) / 10 % 10 = digitVal c4 := by omega
      have e5 : (10 * digitVal c4 + digitVal c5) % 10 = digitVal c5 := by omega
      have e7 : (1000 * digitVal c7 + 100 * digitVal c8 + 10 * digitVal c9 + digitVal c10)
          / 1000 % 10 = digitVal c7 := by omega
      have e8 : (1000 * digitVal c7 + 100 * digitVal c8 + 10 * digitVal c9 + digitVal c10)
          / 100 % 10 = digitVal c8 := by omega
      have e9 : (1000 * digitVal c7 + 100 * digitVal c8 + 10 * digitVal c9 + digitVal c10)
          / 10 % 10 = digitVal c9 := by omega
      have e10 : (1000 * digitVal c7 + 100 * digitVal c8 + 10 * digitVal c9 + digitVal c10)
          % 10 = digitVal c10 := by omega
      rw [e1, e2, e4, e5, e7, e8, e9, e10]
      rw [digitCh_digitVal c1 hd1, digitCh_digitVal c2 hd2, digitCh_digitVal c4 hm1,
        digitCh_digitVal c5 hm2, digitCh_digitVal c7 hy1, digitCh_digitVal c8 hy2,
        digitCh_digitVal c9 hy3, digitCh_digitVal c10 hy4]
      simp
  · intro d hd
    unfold strptimeDMY at hd
    cases h1 : parseDM 31 s with
    | none => simp [h1] at hd
    | some p1 =>
      obtain ⟨dd, r1⟩ := p1
      simp only [h1] at hd
      cases h2 : expectDot r1 with
      | none => simp [h2] at hd
      | some r2 =>
        simp only [h2] at hd
        cases h3 : parseDM 12 r2 with
        | none => simp [h3] at hd
        | some p2 =>
          obtain ⟨mm, r3⟩ := p2
          simp only [h3] at hd
          cases h4 : expectDot r3 with
          | none => simp [h4] at hd
          | some r4 =>
            simp only [h4] at hd
            cases h5 : parseYear4 r4 with
            | none => simp [h5] at hd
            | some yy =>
              simp only [h5] at hd
              by_cases h6 : isValidDate yy mm dd = true
              · simp only [h6, if_true] at hd
                have h7 : (⟨yy, mm, dd⟩ : Date) = d := by simpa using hd
                subst h7
                simpa using h6
              · simp [h6] at hd

/-- Claim C4 witness: the round-trip at the concrete text 05.06.2000. -/
theorem birthday_roundtrip_witness :
    ∃ d, strptimeDMY bd1S.data = some d ∧ renderDMY d = bd1S.data :=
  (birthday_roundtrip bd1S.data).1 (by decide)

theorem nextOcc_eq_spec (td b bd : Date) (h : nextOcc ⟨td, 0⟩ b = some bd) :
    bd = specNextOcc td b := by
  simp only [nextOcc] at h
  cases h1 : replaceYear b td.year with
  | none => simp [h1] at h
  | some bd1 =>
    simp only [h1] at h
    have hbd1 : bd1 = ⟨td.year, b.month, b.day⟩ := by
      unfold replaceYear at h1
      by_cases hv : isValidDate td.year b.month b.day = true
      · simp [hv] at h1
        exact h1.symm
      · simp [hv] at h1
    subst hbd1
    rw [dtLt_mid] at h
    unfold specNextOcc
    by_cases hlt : dateLt ⟨td.year, b.month, b.day⟩ td = true
    · simp only [hlt, if_true] at h ⊢
      unfold replaceYear at h
      by_cases hv2 : isValidDate (td.year + 1) b.month b.day = true
      · simp [hv2] at h
        exact h.symm
      · simp [hv2] at h
    · simp only [hlt, Bool.false_eq_true, if_false] at h ⊢
      simp at h
      exact h.symm

theorem upcomingFrom_spec (td : Date) (rs : List Record)
    (hsafe : ∀ r ∈ rs, Option.all (fun b => (nextOcc ⟨td, 0⟩ b).isSome) r.birthday = true) :
    upcomingFrom ⟨td, 0⟩ rs = PyResult.ok (specUpcoming td rs) := by
  induction rs with
  | nil => rfl
  | cons r rs ih =>
    have hr := hsafe r (List.mem_cons_self r rs)
    have hrest : ∀ r2 ∈ rs, Option.all (fun b => (nextOcc ⟨td, 0⟩ b).isSome) r2.birthday = true :=
      fun r2 hm => hsafe r2 (List.mem_cons_of_mem r hm)
    cases hb : r.birthday with
    | none =>
      simp only [upcomingFrom, specUpcoming, hb]
      exact ih hrest
    | some b =>
      rw [hb] at hr
      simp only [Option.all] at hr
      obtain ⟨bd, hbd⟩ := Option.isSome_iff_exists.mp hr
      have hspec := nextOcc_eq_spec td b bd hbd
      simp only [upcomingFrom, specUpcoming, hb, hbd, ih hrest]
      have hw : addWeek ⟨td, 0⟩ = ⟨addDays td 7, 0⟩ := rfl
      rw [hw, dtLe_mid, dtLe_mid, ← hspec]
      by_cases hc : (dateLe td bd && dateLe bd (addDays td 7)) = true
      · simp [hc]
      · simp [hc]

/-- Claim C1 (amended): for every store whose records' next-occurrence
computations all return without raising, and every today whose time of
day is exactly midnight, get_upcoming_birthdays returns exactly the
records whose birthday's next occurrence (stored month/day with today's
year, advanced a year when strictly earlier than today) falls in the
inclusive window of today through today plus seven days, in store
iteration order, each entry carrying the name and original birthday.
When the time of day is not midnight the datetime comparison excludes a
birthday falling on today's own date, so the restriction to midnight is
necessary. -/
theorem get_upcoming_birthdays_correct (book : AddressBook) (today : PyDateTime)
    (h0 : today.tod = 0) (hsafe : NoLeapFailure today book) :
    AddressBook.get_upcoming_birthdays book today =
      PyResult.ok (specUpcoming today.date (AddressBook.values book)) := by
  obtain ⟨td, tt⟩ := today
  have h0b : tt = 0 := h0
  subst h0b
  unfold NoLeapFailure at hsafe
  exact upcomingFrom_spec td (AddressBook.values book) hsafe

/-- Claim C1 counterexample: with today equal to 2024-06-01 one second
past midnight and a single record whose birthday falls on June 1, the
code compares full datetimes — the June 1 occurrence at midnight is
strictly below today, is pushed to next year and excluded — while the
claim's date-only reading includes it; the two results differ. -/
theorem get_upcoming_birthdays_tod_cex :
    AddressBook.get_upcoming_birthdays cexBook ⟨⟨2024, 6, 1⟩, 1⟩ ≠
      PyResult.ok (specUpcoming ⟨2024, 6, 1⟩ (AddressBook.values cexBook)) := by
  decide

/-- Claim C1 witness: at midnight of 2024-06-01, Alice with birthday
05.06.2000 is reported and Bob with birthday 01.01.2000 is not. -/
theorem get_upcoming_birthdays_correct_witness :
    AddressBook.get_upcoming_birthdays wBook ⟨⟨2024, 6, 1⟩, 0⟩ =
      PyResult.ok [(alS.data, ⟨2000, 6, 5⟩)] := by
  have h := get_upcoming_birthdays_correct wBook ⟨⟨2024, 6, 1⟩, 0⟩ rfl
    (by unfold NoLeapFailure; decide)
  rw [h]
  decide
